import Mathlib

/-!
# Verification of the Mugiwara dyslexia screening core

This development embeds, in Lean, the word-level alignment scorer
(`Backend/modules/Dyslexia/compare.py`) and the level-progression state
machine (`Backend/modules/Dyslexia/Langgraph/graph_nodes.py` and
`Backend/modules/Dyslexia/nodes.py`) of the Mugiwara repository, and
proves the documented properties of both components.

Modelling conventions:
* Python strings are embedded as `List Char`; `str.lower()` is
  `List.map Char.toLower`, `str.strip()` is `trimList` (both ends
  stripped of the whitespace characters Python strips).
* Python floats are embedded as exact rationals (`ℚ`); `round(x, 2)`
  is `round2`, rounding half-to-even at two decimal places as Python's
  `round` does.
* The recursive functions mirroring the `compare_text` dynamic program
  take an explicit fuel argument so that they are structurally
  recursive and kernel-computable; the fuel is fixed to the exact
  number of iterations the Python loops perform (`n + m`), mirroring
  the bound of the `while i > 0 or j > 0` backtracking loop.
* External LLM collaborators (`reason_negative_errors_with_gemini`,
  `verify_with_gemini`) are oracles passed as function arguments; the
  state-machine nodes additionally return a `Bool` recording whether
  the collaborator was consulted, mirroring exactly the call sites in
  the source.
* Timing (`start`/`end` word timestamps) and identity (`user_id`,
  `session_id`, `audio_path`) fields are omitted from the embedding:
  no verified property concerns them and no embedded function branches
  on them.
-/

namespace Mugiwara

/-- A Python word is a list of characters. -/
abbrev Word := List Char

/-- Characters stripped by Python's `str.strip()`. -/
def isPySpace (c : Char) : Bool :=
  c = ' ' || c = '\t' || c = '\n' || c = '\r' || c = Char.ofNat 11 || c = Char.ofNat 12

/-- Embedding of Python `str.strip()`: drop whitespace from both ends. -/
def trimList (w : Word) : Word :=
  ((w.dropWhile isPySpace).reverse.dropWhile isPySpace).reverse

/-- Embedding of Python `str.lower()` (ASCII; source words are ASCII). -/
def lowerW (w : Word) : Word := w.map Char.toLower

/-- Character-level Levenshtein distance (`rapidfuzz.distance.Levenshtein.distance`,
unit costs), with explicit fuel for structural recursion.  At fuel `0` with the
invariant `a.length + b.length ≤ fuel` both lists are empty, so the value
returned there is irrelevant to the wrapped `levChar`. -/
def levCharGo : Nat → Word → Word → Nat
  | 0, a, b => a.length + b.length
  | _ + 1, [], b => b.length
  | _ + 1, x :: xs, [] => (x :: xs).length
  | fuel + 1, x :: xs, y :: ys =>
      min (levCharGo fuel xs ys + (if x = y then 0 else 1))
        (min (levCharGo fuel xs (y :: ys) + 1) (levCharGo fuel (x :: xs) ys + 1))

/-- Character-level Levenshtein distance between two words. -/
def levChar (a b : Word) : Nat := levCharGo (a.length + b.length) a b

/-- Normalization used by the mispronunciation test:
`a = a.lower().strip()` (lowercase first, then strip, as in the source). -/
def normW (w : Word) : Word := trimList (lowerW w)

/-- Normalized edit-distance similarity `1 - distance / max(len(a), len(b))`,
over exact rationals (the source computes it in floating point; at the
decision threshold `0.6 = 3/5` the float comparison agrees with the exact
one, because `1 - d/m ≥ 0.6` is evaluated on correctly rounded doubles). -/
def simQ (a b : Word) : ℚ :=
  1 - (levChar a b : ℚ) / (max a.length b.length : ℚ)

/-- Embedding of `compare.is_likely_mispronunciation`:
normalize (lowercase, strip), reject on exact match or length gap `≥ 3`,
otherwise accept iff normalized edit-distance similarity is at least
`0.6` (= `3/5` exactly). -/
def is_likely_mispronunciation (ta sp : Word) : Bool :=
  if normW ta = normW sp then false
  else if 3 ≤ (((normW ta).length : ℤ) - ((normW sp).length : ℤ)).natAbs then false
  else decide ((3 : ℚ) / 5 ≤ simQ (normW ta) (normW sp))

/-- Case-insensitive word equality, the match predicate of the
word-level dynamic program (`target_words[i-1].lower() == trans_words[j-1].lower()`). -/
def wEq (a b : Word) : Bool := decide (lowerW a = lowerW b)

/-- The word-level edit-distance table of `compare_text`.  `distWGo fuel rx ry`
is `dp[i][j]` where `rx`/`ry` are the REVERSED length-`i`/length-`j` prefixes of
the target/transcript word lists: the recursion on the heads of the reversed
prefixes is literally the recurrence
`dp[i][j] = min(dp[i-1][j-1]+cost, dp[i-1][j]+1, dp[i][j-1]+1)` with base rows
`dp[i][0] = i`, `dp[0][j] = j`. -/
def distWGo : Nat → List Word → List Word → Nat
  | 0, a, b => a.length + b.length
  | _ + 1, [], b => b.length
  | _ + 1, x :: xs, [] => (x :: xs).length
  | fuel + 1, x :: xs, y :: ys =>
      min (distWGo fuel xs ys + (if wEq x y then 0 else 1))
        (min (distWGo fuel xs (y :: ys) + 1) (distWGo fuel (x :: xs) ys + 1))

/-- `distW rx ry` = `dp[rx.length][ry.length]` on reversed prefix lists. -/
def distW (a b : List Word) : Nat := distWGo (a.length + b.length) a b

/-- The four edit operations of the alignment. -/
inductive Op where
  | correct
  | substitution
  | deletion
  | insertion
deriving DecidableEq, Repr

/-- One step of the backtracked alignment (`alignment` entries in
`compare_text`); timing fields omitted (see the module docstring). -/
structure AlignStep where
  op : Op
  target_word : Option Word
  spoken_word : Option Word
deriving DecidableEq, Repr

/-- The backtracking loop of `compare_text` (`while i > 0 or j > 0`), consuming
the REVERSED target/transcript lists, so its head decisions are the source's
decisions at cell `(i, j)`.  The operation at `(i, j)` is recomputed from the
`dp` values exactly as the forward pass stores it in `back[i][j]`:
`best = min(sub, del, ins)`; `best == sub` prefers match/substitution, then
deletion, then insertion; `back[i][0] = "deletion"`, `back[0][j] = "insertion"`.
Output is in backtracking order (right to left); `compare_text` reverses it. -/
def backGo : Nat → List Word → List Word → List AlignStep
  | 0, _, _ => []
  | _ + 1, [], [] => []
  | fuel + 1, x :: xs, [] => ⟨.deletion, some x, none⟩ :: backGo fuel xs []
  | fuel + 1, [], y :: ys => ⟨.insertion, none, some y⟩ :: backGo fuel [] ys
  | fuel + 1, x :: xs, y :: ys =>
      let cost : Nat := if wEq x y then 0 else 1
      let sub := distW xs ys + cost
      let del := distW xs (y :: ys) + 1
      let ins := distW (x :: xs) ys + 1
      let best := min sub (min del ins)
      if best = sub then
        ⟨if cost = 0 then .correct else .substitution, some x, some y⟩ :: backGo fuel xs ys
      else if best = del then
        ⟨.deletion, some x, none⟩ :: backGo fuel xs (y :: ys)
      else
        ⟨.insertion, none, some y⟩ :: backGo fuel (x :: xs) ys

/-- Backtracked alignment from cell `(n, m)`, in backtracking order. -/
def backtrack (a b : List Word) : List AlignStep := backGo (a.length + b.length) a b

/-- The three labels of a `WordStatus`. -/
inductive Label where
  | correct
  | mispronunciation
  | error
deriving DecidableEq, Repr

/-- Per-word classification produced by `compare_text` (timing omitted). -/
structure WordStatus where
  target_word : Option Word
  spoken_word : Option Word
  label : Label
  confidence : ℚ
  reason : String
deriving DecidableEq, Repr

/-- The label-conversion pass of `compare_text` (one alignment step to one
`WordStatus`): `correct` keeps confidence 1; a `substitution` is re-checked for
case-insensitive equality (defensive), then classified by
`is_likely_mispronunciation` (0.7) or as an error (0.9); `insertion`/`deletion`
are errors (0.9) whose reason names the operation. -/
def statusOfStep (st : AlignStep) : WordStatus :=
  match st.op with
  | .correct => ⟨st.target_word, st.spoken_word, .correct, 1, "Exact match"⟩
  | .substitution =>
      let t := st.target_word.getD []
      let s := st.spoken_word.getD []
      if lowerW t = lowerW s then
        ⟨st.target_word, st.spoken_word, .correct, 1, "Exact match"⟩
      else if is_likely_mispronunciation t s then
        ⟨st.target_word, st.spoken_word, .mispronunciation, 7/10,
          "High similarity (edit-distance based)"⟩
      else
        ⟨st.target_word, st.spoken_word, .error, 9/10, "Too different from expected word"⟩
  | .deletion => ⟨st.target_word, st.spoken_word, .error, 9/10, "deletion detected"⟩
  | .insertion => ⟨st.target_word, st.spoken_word, .error, 9/10, "insertion detected"⟩

/-- Result record of `compare_text` (the echoed input texts are omitted). -/
structure CompareResult where
  distance : Nat
  word_status : List WordStatus
deriving DecidableEq, Repr

/-- Embedding of `compare.compare_text` after whitespace splitting: the inputs
are the target and transcript word lists, the output is the final edit-distance
cost `dp[n][m]` together with the left-to-right `word_status` sequence. -/
def compare_text (target trans : List Word) : CompareResult :=
  ⟨distW target.reverse trans.reverse,
   ((backtrack target.reverse trans.reverse).reverse).map statusOfStep⟩

/-- Rounding half-to-even to an integer, the tie rule of Python's `round`. -/
def roundHalfEven (x : ℚ) : ℤ :=
  if x - ⌊x⌋ < 1/2 then ⌊x⌋
  else if 1/2 < x - ⌊x⌋ then ⌊x⌋ + 1
  else if ⌊x⌋ % 2 = 0 then ⌊x⌋ else ⌊x⌋ + 1

/-- Embedding of Python `round(x, 2)` over exact rationals. -/
def round2 (x : ℚ) : ℚ := (roundHalfEven (x * 100) : ℚ) / 100

/-- Points awarded per label by `node_compare_and_score`:
`correct` is worth 1, `mispronunciation` 0.5, `error` 0. -/
def labelPoints : Label → ℚ
  | .correct => 1
  | .mispronunciation => 1/2
  | .error => 0

/-- The points loop of `node_compare_and_score`. -/
def pointsOf (ws : List WordStatus) : ℚ := (ws.map (fun w => labelPoints w.label)).sum

/-- Number of entries of a `word_status` sequence carrying a given label. -/
def countLabel (l : Label) (ws : List WordStatus) : Nat :=
  (ws.filter (fun w => w.label = l)).length

/-- Accuracy computed by `node_compare_and_score`: `0.0` for an empty
`word_status`, otherwise `points / total * 100`, then `round(·, 2)`. -/
def accuracyOf (ws : List WordStatus) : ℚ :=
  round2 (if ws.length = 0 then 0 else pointsOf ws / (ws.length : ℚ) * 100)

/-- One entry of `negative_errors` (`extract_negative_errors`). -/
structure NegErr where
  target : Option Word
  spoken : Option Word
  label : Label
  reason : String
deriving DecidableEq, Repr

/-- Embedding of `extract_negative_errors`: every `WordStatus` whose label is
not `correct`, projected to target/spoken/label/reason, in order. -/
def extract_negative_errors (ws : List WordStatus) : List NegErr :=
  (ws.filter (fun w => ¬ w.label = .correct)).map
    (fun w => ⟨w.target_word, w.spoken_word, w.label, w.reason⟩)

/-- A per-level result record (`state["level_results"][level]`). -/
structure LevelResult where
  target_text : List Word
  transcribed_text : List Word
  accuracy : ℚ
  distance : Nat
  word_status : List WordStatus
  negative_errors : List NegErr
deriving DecidableEq, Repr

/-- Reply of the external error reasoner (`reason_negative_errors_with_gemini`). -/
structure Verdict where
  cause : String
  confidence : ℚ
  suggest_retest : Bool
  reason : String
deriving DecidableEq, Repr

/-- Reply of the external final verifier (`verify_with_gemini`). -/
structure VerifyVerdict where
  final_result : String
  confidence : ℚ
  reason : String
deriving DecidableEq, Repr

/-- Values stored in the heterogeneous `features` mapping. -/
inductive FVal where
  | verdict (v : Verdict)
  | str (s : String)
  | num (q : ℚ)
deriving DecidableEq, Repr

/-- Dictionary lookup on an association list (Python `d[k]` / `d.get(k)`). -/
def lookupA {α : Type} (l : List (Nat × α)) (k : Nat) : Option α :=
  (l.find? (fun p => p.1 = k)).map (fun p => p.2)

/-- Dictionary lookup keyed by strings (the `features` mapping). -/
def lookupS {α : Type} (l : List (String × α)) (k : String) : Option α :=
  (l.find? (fun p => p.1 = k)).map (fun p => p.2)

/-- Dictionary assignment `d[k] = v`: overwrite in place if the key is
present, else append (Python dicts keep insertion order). -/
def setA {κ α : Type} [DecidableEq κ] (l : List (κ × α)) (k : κ) (v : α) : List (κ × α) :=
  if l.any (fun p => p.1 = k) then
    l.map (fun p => if p.1 = k then (k, v) else p)
  else l ++ [(k, v)]

/-- The LangGraph screening state (`DyslexiaGraphState`), timing and identity
fields omitted (see the module docstring).  The `setdefault` calls of the
source become no-ops here because every field is always present. -/
structure GraphState where
  current_level : Nat
  target_text : List Word
  transcribed_text : List Word
  level_scores : List (Nat × ℚ)
  level_results : List (Nat × LevelResult)
  status : String
  next_level : Option Nat
  should_continue : Bool
  message : String
  final_result : Option String
  features : List (String × FVal)
  logs : List String
deriving Repr

/-- Embedding of `graph_nodes.node_compare_and_score`: run `compare_text`,
compute the weighted accuracy (rounded to two decimals), store the score and
the `LevelResult` under the current level, and log.  Numeric formatting inside
the log line is abstracted to the level number. -/
def node_compare_and_score (s : GraphState) : GraphState :=
  let result := compare_text s.target_text s.transcribed_text
  let ws := result.word_status
  let accuracy := accuracyOf ws
  let negs := extract_negative_errors ws
  let lr : LevelResult :=
    ⟨s.target_text, s.transcribed_text, accuracy, result.distance, ws, negs⟩
  { s with
    level_scores := setA s.level_scores s.current_level accuracy
    level_results := setA s.level_results s.current_level lr
    logs := s.logs ++ ["Level " ++ toString s.current_level ++ " scored"] }

/-- Embedding of `graph_nodes.node_decide_route`.  The reasoner collaborator
is the oracle `reasonFn`; the returned `Bool` records whether it was consulted
(mirroring the single call site in the source).  The result is `none` when
`state["level_results"][level]` would raise a `KeyError`. -/
def node_decide_route (reasonFn : Nat → List NegErr → Verdict) (s : GraphState) :
    Option (GraphState × Bool) :=
  match lookupA s.level_results s.current_level with
  | none => none
  | some lr =>
    let level := s.current_level
    let acc := lr.accuracy
    if 40 ≤ acc then
      if level < 4 then
        let msg := "Passed Level " ++ toString level ++ ". Go to Level " ++
          toString (level + 1) ++ "."
        some ({ s with
                  status := "PASS"
                  next_level := some (level + 1)
                  should_continue := true
                  message := msg
                  logs := s.logs ++ [msg] }, false)
      else
        let msg := "All levels evaluated. Running final verification."
        some ({ s with
                  status := "COMPLETED"
                  should_continue := false
                  next_level := none
                  message := msg
                  logs := s.logs ++ [msg] }, false)
    else
      if level = 1 ∨ level = 2 then
        let verdict := reasonFn level lr.negative_errors
        let fkey := "level_" ++ toString level ++ "_reasoning"
        let s1 := { s with features := setA s.features fkey (.verdict verdict) }
        if verdict.suggest_retest = true ∧ 3/5 ≤ verdict.confidence then
          let msg := "Retest suggested for Level " ++ toString level ++ ": " ++ verdict.reason
          some ({ s1 with
                    status := "RETEST"
                    next_level := some level
                    should_continue := true
                    message := msg
                    logs := s1.logs ++ [msg] }, true)
        else
          let msg := "Level " ++ toString level ++ " failed. Proceeding to final verification."
          some ({ s1 with
                    status := "COMPLETED"
                    should_continue := false
                    next_level := none
                    message := msg
                    logs := s1.logs ++ [msg] }, true)
      else
        let msg := "Level " ++ toString level ++ " failed. Proceeding to final verification."
        some ({ s with
                  status := "COMPLETED"
                  should_continue := false
                  next_level := none
                  message := msg
                  logs := s.logs ++ [msg] }, false)

/-- Embedding of `graph_builder.route_condition`: where the router's output is
sent next (`"VERIFY"` runs the final verifier). -/
def route_condition (s : GraphState) : String :=
  if s.status = "PASS" then "ADVANCE"
  else if s.status = "RETEST" then "END"
  else if s.status = "COMPLETED" then "VERIFY"
  else "END"

/-- Embedding of `graph_nodes.node_final_verifier`.  The verifier collaborator
is the oracle `verifyFn`; the returned `Bool` records that it was consulted
(the source calls it unconditionally). -/
def node_final_verifier (verifyFn : List (Nat × LevelResult) → VerifyVerdict)
    (s : GraphState) : GraphState × Bool :=
  let verdict := verifyFn s.level_results
  let llm_result := verdict.final_result
  let llm_conf := verdict.confidence
  let fr := if llm_conf < 3/5 then "INCONCLUSIVE" else llm_result
  let msg := "Final decision: " ++ fr
  ({ s with
     features := setA (setA (setA s.features "llm_final_result" (.str llm_result))
       "llm_confidence" (.num llm_conf)) "llm_reason" (.str verdict.reason)
     final_result := some fr
     status := "COMPLETED"
     should_continue := false
     next_level := none
     message := msg
     logs := s.logs ++ [msg] }, true)

/-- The schemas-based screening state (`schemas.DyslexiaState`), restricted to
the fields read or written by the embedded nodes (identity, retest-counter and
timing fields omitted). -/
structure NState where
  current_level : Nat
  target_text : List Word
  transcribed_text : List Word
  expected_text : List Word
  last_accuracy : ℚ
  level_scores : List (Nat × ℚ)
  level_results : List (Nat × LevelResult)
  features : List (String × FVal)
  status : String
  final_result : Option String
  next_level : Option Nat
  should_continue : Bool
  message : String
  logs : List String
deriving Repr

/-- Embedding of `nodes.node_decide_next` (the schemas-based gatekeeper).  The
reasoner collaborator is the oracle `reasonFn`; the returned `Bool` records
whether it was consulted.  The result is `none` when
`state.level_results[level]` would raise a `KeyError`.  Numeric formatting in
messages is abstracted to the level number. -/
def node_decide_next (reasonFn : Nat → List NegErr → Verdict) (s : NState) :
    Option (NState × Bool) :=
  let level := s.current_level
  let acc := s.last_accuracy
  if acc < 40 then
    if level = 1 ∨ level = 2 then
      match lookupA s.level_results level with
      | none => none
      | some lr =>
        let verdict := reasonFn level lr.negative_errors
        let fkey := "level_" ++ toString level ++ "_error_reasoning"
        let s1 := { s with features := setA s.features fkey (.verdict verdict) }
        if verdict.suggest_retest = true ∧ 3/5 ≤ verdict.confidence then
          some ({ s1 with
                    status := "RETEST"
                    final_result := none
                    next_level := some level
                    should_continue := true
                    message := "Retest suggested: " ++ verdict.reason
                    logs := s1.logs ++ ["DECISION: RETEST"] }, true)
        else
          some ({ s1 with
                    status := "COMPLETED"
                    final_result := some "RISK_DYSLEXIA"
                    should_continue := false
                    next_level := none
                    message := "Failed Level " ++ toString level ++ ". Screening stopped."
                    logs := s1.logs ++ ["DECISION: STOP (RISK DETECTED)"] }, true)
    else
      some ({ s with
                status := "COMPLETED"
                final_result := some "RISK_DYSLEXIA"
                should_continue := false
                next_level := none
                message := "Failed Level " ++ toString level ++ ". Screening stopped."
                logs := s.logs ++ ["DECISION: STOP (RISK DETECTED)"] }, false)
  else
    let passLog := "Passed Level " ++ toString level ++ ". Checking for next level..."
    let s1 := { s with logs := s.logs ++ [passLog] }
    if level < 4 then
      some ({ s1 with
                next_level := some (level + 1)
                should_continue := true
                status := "IN_PROGRESS" }, false)
    else
      some ({ s1 with
                next_level := none
                should_continue := false
                status := "VERIFYING" }, false)

/-- Embedding of `nodes.node_llm_verification` (the schemas-based final
verification).  The verifier collaborator is the oracle `verifyFn`; the
returned `Bool` records whether it was consulted: with an empty
`level_results` the node returns early and never calls it. -/
def node_llm_verification (verifyFn : List (Nat × LevelResult) → VerifyVerdict)
    (s : NState) : NState × Bool :=
  let s0 := { s with logs := s.logs ++ ["Sending all results to Gemini for final profile..."] }
  if s0.level_results = [] then
    ({ s0 with final_result := some "INCONCLUSIVE", message := "No data to verify." }, false)
  else
    let verdict := verifyFn s0.level_results
    let fr := verdict.final_result
    ({ s0 with
       final_result := some fr
       features := setA (setA s0.features "llm_confidence" (.num verdict.confidence))
         "llm_reason" (.str verdict.reason)
       status := "COMPLETED"
       message := "Final Diagnosis: " ++ fr
       logs := s0.logs ++ ["LLM Reason: " ++ verdict.reason] }, true)

/-! ## Properties of the mispronunciation test (claim C1) -/

/-- Characterization of `is_likely_mispronunciation` on words whose
normalizations differ: it accepts iff the normalized length gap is below 3
and the normalized similarity reaches `3/5`. -/
theorem is_likely_eq_true_iff (t s : Word) (hne : normW t ≠ normW s) :
    is_likely_mispronunciation t s = true ↔
      ((((normW t).length : ℤ) - ((normW s).length : ℤ)).natAbs < 3 ∧
        (3 : ℚ) / 5 ≤ simQ (normW t) (normW s)) := by
  unfold is_likely_mispronunciation
  rw [if_neg hne]
  by_cases h3 : 3 ≤ (((normW t).length : ℤ) - ((normW s).length : ℤ)).natAbs
  · rw [if_pos h3]
    constructor
    · intro hf; cases hf
    · rintro ⟨hlt, _⟩; omega
  · rw [if_neg h3]
    simp only [decide_eq_true_eq]
    constructor
    · intro hs; exact ⟨by omega, hs⟩
    · rintro ⟨_, hs⟩; exact hs

/-- On a substitution step whose words differ after normalization, the label
conversion reduces to the mispronunciation test (the defensive
case-insensitive-equality branch is unreachable there). -/
theorem statusOfStep_substitution (t s : Word) (hne : normW t ≠ normW s) :
    statusOfStep ⟨Op.substitution, some t, some s⟩ =
      if is_likely_mispronunciation t s then
        ⟨some t, some s, Label.mispronunciation, 7/10, "High similarity (edit-distance based)"⟩
      else
        ⟨some t, some s, Label.error, 9/10, "Too different from expected word"⟩ := by
  have hlow : ¬ (lowerW t = lowerW s) := fun h => hne (by unfold normW; rw [h])
  simp only [statusOfStep, Option.getD_some]
  rw [if_neg hlow]

/-- C1: for every substitution step of the alignment whose target and spoken
words are unequal after lowercasing and trimming, the resulting `WordStatus`
is labelled `mispronunciation` with confidence 0.7 iff the normalized words
have length gap `< 3` and normalized similarity `≥ 0.6`, and is labelled
`error` with confidence 0.9 otherwise; in particular (under the length gate)
similarity exactly `0.6` classifies as `mispronunciation`, and similarity
`0.59` classifies as `error`. -/
theorem C1_substitution_mispronunciation_rule (t s : Word) (hne : normW t ≠ normW s) :
    (((statusOfStep ⟨Op.substitution, some t, some s⟩).label = Label.mispronunciation ∧
        (statusOfStep ⟨Op.substitution, some t, some s⟩).confidence = 7/10) ↔
      ((((normW t).length : ℤ) - ((normW s).length : ℤ)).natAbs < 3 ∧
        (3 : ℚ) / 5 ≤ simQ (normW t) (normW s))) ∧
    (¬ ((((normW t).length : ℤ) - ((normW s).length : ℤ)).natAbs < 3 ∧
        (3 : ℚ) / 5 ≤ simQ (normW t) (normW s)) →
      ((statusOfStep ⟨Op.substitution, some t, some s⟩).label = Label.error ∧
        (statusOfStep ⟨Op.substitution, some t, some s⟩).confidence = 9/10)) ∧
    ((((normW t).length : ℤ) - ((normW s).length : ℤ)).natAbs < 3 →
      simQ (normW t) (normW s) = 3/5 →
      (statusOfStep ⟨Op.substitution, some t, some s⟩).label = Label.mispronunciation) ∧
    (simQ (normW t) (normW s) = 59/100 →
      (statusOfStep ⟨Op.substitution, some t, some s⟩).label = Label.error) := by
  have hiff := is_likely_eq_true_iff t s hne
  rw [statusOfStep_substitution t s hne]
  by_cases hml : is_likely_mispronunciation t s = true
  · rw [if_pos hml]
    have hrhs := hiff.mp hml
    refine ⟨⟨fun _ => hrhs, fun _ => ⟨rfl, rfl⟩⟩, fun hn => absurd hrhs hn, fun _ _ => rfl, ?_⟩
    intro h59
    exfalso
    have h35 := hrhs.2
    rw [h59] at h35
    norm_num at h35
  · rw [if_neg hml]
    have hnr : ¬ ((((normW t).length : ℤ) - ((normW s).length : ℤ)).natAbs < 3 ∧
        (3 : ℚ) / 5 ≤ simQ (normW t) (normW s)) := fun h => hml (hiff.mpr h)
    refine ⟨⟨fun h => absurd h.1 (by simp), fun h => absurd h hnr⟩,
      fun _ => ⟨rfl, rfl⟩, ?_, fun _ => rfl⟩
    intro hlen hsim
    exact absurd (hiff.mpr ⟨hlen, by rw [hsim]⟩) hml

/-- Witness for C1 at the substitution ("fox", "box"): similarity `2/3 ≥ 0.6`,
classified as a mispronunciation with confidence 0.7. -/
theorem C1_substitution_mispronunciation_rule_witness :
    (statusOfStep ⟨Op.substitution, some ['f','o','x'], some ['b','o','x']⟩).label =
      Label.mispronunciation ∧
    (statusOfStep ⟨Op.substitution, some ['f','o','x'], some ['b','o','x']⟩).confidence = 7/10 := by
  have h := C1_substitution_mispronunciation_rule ['f','o','x'] ['b','o','x']
    (by with_unfolding_all decide)
  exact h.1.mpr (by with_unfolding_all decide)

/-! ## Bounds on distance and accuracy (claim C7) -/

/-- Every entry of the word-level edit-distance table dominates the length
difference of the two (reversed-prefix) word lists, at any fuel. -/
theorem natAbs_le_distWGo (fuel : Nat) (a b : List Word) :
    ((a.length : ℤ) - (b.length : ℤ)).natAbs ≤ distWGo fuel a b := by
  induction fuel generalizing a b with
  | zero => simp only [distWGo]; omega
  | succ fuel ih =>
    match a, b with
    | [], b => simp only [distWGo, List.length_nil]; omega
    | x :: xs, [] => simp only [distWGo, List.length_nil, List.length_cons]; omega
    | x :: xs, y :: ys =>
      have h1 := ih xs ys
      have h2 := ih xs (y :: ys)
      have h3 := ih (x :: xs) ys
      simp only [distWGo, List.length_cons] at h1 h2 h3 ⊢
      refine Nat.le_min.mpr ⟨?_, Nat.le_min.mpr ⟨?_, ?_⟩⟩
      · split <;> omega
      · omega
      · omega

/-- Per-label points are nonnegative. -/
theorem labelPoints_nonneg (l : Label) : 0 ≤ labelPoints l := by
  cases l <;> norm_num [labelPoints]

/-- Per-label points never exceed 1. -/
theorem labelPoints_le_one (l : Label) : labelPoints l ≤ 1 := by
  cases l <;> norm_num [labelPoints]

/-- The points total is nonnegative. -/
theorem pointsOf_nonneg (ws : List WordStatus) : 0 ≤ pointsOf ws := by
  induction ws with
  | nil => simp [pointsOf]
  | cons w tl ih =>
    simp only [pointsOf, List.map_cons, List.sum_cons] at ih ⊢
    have := labelPoints_nonneg w.label
    linarith

/-- The points total never exceeds the number of scored words. -/
theorem pointsOf_le_length (ws : List WordStatus) : pointsOf ws ≤ (ws.length : ℚ) := by
  induction ws with
  | nil => simp [pointsOf]
  | cons w tl ih =>
    simp only [pointsOf, List.map_cons, List.sum_cons, List.length_cons] at ih ⊢
    have := labelPoints_le_one w.label
    push_cast
    linarith

/-- Half-to-even rounding never exceeds an integer upper bound of its input. -/
theorem roundHalfEven_le (x : ℚ) (B : ℤ) (h : x ≤ (B : ℚ)) : roundHalfEven x ≤ B := by
  unfold roundHalfEven
  have hfB : ⌊x⌋ ≤ B := by
    have h2 := Int.floor_le_floor h
    rwa [Int.floor_intCast] at h2
  have hfl : (⌊x⌋ : ℚ) ≤ x := Int.floor_le x
  split_ifs with h1 h2 h3
  · exact hfB
  · have hlt : (⌊x⌋ : ℚ) < (B : ℚ) := by linarith
    have : ⌊x⌋ < B := by exact_mod_cast hlt
    omega
  · exact hfB
  · have hge : (1 : ℚ)/2 ≤ x - ⌊x⌋ := by linarith [not_lt.mp h1]
    have hlt : (⌊x⌋ : ℚ) < (B : ℚ) := by linarith
    have : ⌊x⌋ < B := by exact_mod_cast hlt
    omega

/-- Half-to-even rounding never drops below an integer lower bound of its input. -/
theorem le_roundHalfEven (x : ℚ) (A : ℤ) (h : (A : ℚ) ≤ x) : A ≤ roundHalfEven x := by
  unfold roundHalfEven
  have hf : A ≤ ⌊x⌋ := Int.le_floor.mpr h
  split_ifs <;> omega

/-- Rounding to two decimals preserves the `[0, 100]` range. -/
theorem round2_bounds (x : ℚ) (h0 : 0 ≤ x) (h100 : x ≤ 100) :
    0 ≤ round2 x ∧ round2 x ≤ 100 := by
  unfold round2
  constructor
  · apply div_nonneg _ (by norm_num)
    have h2 : (0 : ℤ) ≤ roundHalfEven (x * 100) :=
      le_roundHalfEven (x * 100) 0 (by push_cast; nlinarith)
    exact_mod_cast h2
  · rw [div_le_iff₀ (by norm_num : (0 : ℚ) < 100)]
    have h2 : roundHalfEven (x * 100) ≤ (10000 : ℤ) :=
      roundHalfEven_le (x * 100) 10000 (by push_cast; nlinarith)
    calc (roundHalfEven (x * 100) : ℚ) ≤ (10000 : ℚ) := by exact_mod_cast h2
      _ = 100 * 100 := by norm_num

/-- The stored accuracy always lies in `[0, 100]`. -/
theorem accuracyOf_bounds (ws : List WordStatus) :
    0 ≤ accuracyOf ws ∧ accuracyOf ws ≤ 100 := by
  unfold accuracyOf
  by_cases h : ws.length = 0
  · rw [if_pos h]
    exact round2_bounds 0 le_rfl (by norm_num)
  · rw [if_neg h]
    have hpos : (0 : ℚ) < (ws.length : ℚ) := by
      have := Nat.pos_of_ne_zero h
      exact_mod_cast this
    have hp0 := pointsOf_nonneg ws
    have hpl := pointsOf_le_length ws
    apply round2_bounds
    · exact mul_nonneg (div_nonneg hp0 hpos.le) (by norm_num)
    · have hdiv : pointsOf ws / (ws.length : ℚ) ≤ 1 := (div_le_one hpos).mpr hpl
      nlinarith

/-- C7: for all inputs to the alignment scorer, the computed accuracy lies in
`[0, 100]`, the computed distance is nonnegative, and the distance dominates
the difference of the word counts `|n - m|`. -/
theorem C7_accuracy_and_distance_bounds (target trans : List Word) :
    0 ≤ accuracyOf (compare_text target trans).word_status ∧
    accuracyOf (compare_text target trans).word_status ≤ 100 ∧
    0 ≤ ((compare_text target trans).distance : ℤ) ∧
    ((target.length : ℤ) - (trans.length : ℤ)).natAbs ≤ (compare_text target trans).distance := by
  obtain ⟨h0, h100⟩ := accuracyOf_bounds (compare_text target trans).word_status
  refine ⟨h0, h100, by exact_mod_cast Int.ofNat_nonneg _, ?_⟩
  show ((target.length : ℤ) - (trans.length : ℤ)).natAbs ≤ distW target.reverse trans.reverse
  unfold distW
  have h := natAbs_le_distWGo (target.reverse.length + trans.reverse.length)
    target.reverse trans.reverse
  simpa [List.length_reverse] using h

/-! ## Coverage of the alignment (claim C9) -/

/-- The label-conversion pass copies the step's target word unchanged. -/
theorem statusOfStep_target_word (st : AlignStep) :
    (statusOfStep st).target_word = st.target_word := by
  rcases st with ⟨op, tw, sw⟩
  cases op with
  | substitution => simp only [statusOfStep]; split_ifs <;> rfl
  | correct => rfl
  | deletion => rfl
  | insertion => rfl

/-- The label-conversion pass copies the step's spoken word unchanged. -/
theorem statusOfStep_spoken_word (st : AlignStep) :
    (statusOfStep st).spoken_word = st.spoken_word := by
  rcases st with ⟨op, tw, sw⟩
  cases op with
  | substitution => simp only [statusOfStep]; split_ifs <;> rfl
  | correct => rfl
  | deletion => rfl
  | insertion => rfl

/-- The backtracking loop consumes each word of the two (reversed) lists
exactly once, in order: projecting the target (resp. spoken) words out of the
produced steps returns the first (resp. second) input list. -/
theorem backGo_filterMap (fuel : Nat) (a b : List Word) (h : a.length + b.length ≤ fuel) :
    (backGo fuel a b).filterMap (fun st => st.target_word) = a ∧
    (backGo fuel a b).filterMap (fun st => st.spoken_word) = b := by
  induction fuel generalizing a b with
  | zero =>
    match a, b with
    | [], [] => simp [backGo]
    | x :: xs, b => simp at h
    | [], y :: ys => simp at h
  | succ fuel ih =>
    match a, b with
    | [], [] => simp [backGo]
    | x :: xs, [] =>
      have hr := ih xs [] (by simp only [List.length_cons, List.length_nil] at h ⊢; omega)
      simp [backGo, List.filterMap_cons, hr.1, hr.2]
    | [], y :: ys =>
      have hr := ih [] ys (by simp only [List.length_cons, List.length_nil] at h ⊢; omega)
      simp [backGo, List.filterMap_cons, hr.1, hr.2]
    | x :: xs, y :: ys =>
      have hsub := ih xs ys (by simp only [List.length_cons] at h ⊢; omega)
      have hdel := ih xs (y :: ys) (by simp only [List.length_cons] at h ⊢; omega)
      have hins := ih (x :: xs) ys (by simp only [List.length_cons] at h ⊢; omega)
      simp only [backGo]
      split_ifs <;>
        simp [List.filterMap_cons, hsub.1, hsub.2, hdel.1, hdel.2, hins.1, hins.2]

/-- The backtracked alignment has between `max n m` and `n + m` steps. -/
theorem backGo_length (fuel : Nat) (a b : List Word) (h : a.length + b.length ≤ fuel) :
    max a.length b.length ≤ (backGo fuel a b).length ∧
    (backGo fuel a b).length ≤ a.length + b.length := by
  induction fuel generalizing a b with
  | zero =>
    match a, b with
    | [], [] => simp [backGo]
    | x :: xs, b => simp at h
    | [], y :: ys => simp at h
  | succ fuel ih =>
    match a, b with
    | [], [] => simp [backGo]
    | x :: xs, [] =>
      have hr := ih xs [] (by simp only [List.length_cons, List.length_nil] at h ⊢; omega)
      simp only [backGo, List.length_cons, List.length_nil] at hr ⊢
      omega
    | [], y :: ys =>
      have hr := ih [] ys (by simp only [List.length_cons, List.length_nil] at h ⊢; omega)
      simp only [backGo, List.length_cons, List.length_nil] at hr ⊢
      omega
    | x :: xs, y :: ys =>
      have hsub := ih xs ys (by simp only [List.length_cons] at h ⊢; omega)
      have hdel := ih xs (y :: ys) (by simp only [List.length_cons] at h ⊢; omega)
      have hins := ih (x :: xs) ys (by simp only [List.length_cons] at h ⊢; omega)
      simp only [backGo]
      split_ifs <;> simp only [List.length_cons] at hsub hdel hins ⊢ <;> omega

/-- C9: the `word_status` sequence of `compare_text` covers each of the `n`
target words exactly once and in order (as the `target_word` of its
correct/substitution/deletion entries, i.e. the entries whose `target_word`
is set) and each of the `m` transcribed words exactly once and in order (as
the `spoken_word` of its correct/substitution/insertion entries);
consequently `max n m ≤ length word_status ≤ n + m`. -/
theorem C9_alignment_coverage (target trans : List Word) :
    (compare_text target trans).word_status.filterMap (fun w => w.target_word) = target ∧
    (compare_text target trans).word_status.filterMap (fun w => w.spoken_word) = trans ∧
    max target.length trans.length ≤ (compare_text target trans).word_status.length ∧
    (compare_text target trans).word_status.length ≤ target.length + trans.length := by
  have hfm := backGo_filterMap (target.reverse.length + trans.reverse.length)
    target.reverse trans.reverse le_rfl
  have hlen := backGo_length (target.reverse.length + trans.reverse.length)
    target.reverse trans.reverse le_rfl
  have hws : (compare_text target trans).word_status =
      ((backGo (target.reverse.length + trans.reverse.length)
        target.reverse trans.reverse).reverse).map statusOfStep := rfl
  have htfun : (fun w : WordStatus => w.target_word) ∘ statusOfStep =
      fun st : AlignStep => st.target_word := by
    funext st; exact statusOfStep_target_word st
  have hsfun : (fun w : WordStatus => w.spoken_word) ∘ statusOfStep =
      fun st : AlignStep => st.spoken_word := by
    funext st; exact statusOfStep_spoken_word st
  refine ⟨?_, ?_, ?_, ?_⟩
  · rw [hws, List.filterMap_map, htfun, List.filterMap_reverse, hfm.1, List.reverse_reverse]
  · rw [hws, List.filterMap_map, hsfun, List.filterMap_reverse, hfm.2, List.reverse_reverse]
  · rw [hws, List.length_map, List.length_reverse]
    simpa [List.length_reverse] using hlen.1
  · rw [hws, List.length_map, List.length_reverse]
    simpa [List.length_reverse] using hlen.2

/-! ## Stored accuracy and distance (claim C6) -/

/-- Lookup skips a head entry with a different key. -/
theorem lookupA_cons_ne {α : Type} (p : Nat × α) (tl : List (Nat × α)) (k : Nat)
    (h : ¬ p.1 = k) : lookupA (p :: tl) k = lookupA tl k := by
  simp [lookupA, List.find?, h]

/-- Lookup returns a head entry with a matching key. -/
theorem lookupA_cons_eq {α : Type} (p : Nat × α) (tl : List (Nat × α)) (k : Nat)
    (h : p.1 = k) : lookupA (p :: tl) k = some p.2 := by
  simp [lookupA, List.find?, h]

/-- Lookup after an in-place overwrite of an existing key. -/
theorem lookupA_map_overwrite {α : Type} (l : List (Nat × α)) (k : Nat) (v : α)
    (h : l.any (fun p => p.1 = k) = true) :
    lookupA (l.map (fun p => if p.1 = k then (k, v) else p)) k = some v := by
  induction l with
  | nil => simp at h
  | cons p tl ih =>
    by_cases hp : p.1 = k
    · simp only [List.map_cons, if_pos hp]
      exact lookupA_cons_eq (k, v) _ k rfl
    · have htl : tl.any (fun p => p.1 = k) = true := by
        simp only [List.any_cons, Bool.or_eq_true, decide_eq_true_eq] at h
        rcases h with h | h
        · exact absurd h hp
        · exact h
      simp only [List.map_cons, if_neg hp]
      rw [lookupA_cons_ne p _ k hp]
      exact ih htl

/-- Lookup after appending a fresh key. -/
theorem lookupA_append_single {α : Type} (l : List (Nat × α)) (k : Nat) (v : α)
    (h : l.any (fun p => p.1 = k) = false) :
    lookupA (l ++ [(k, v)]) k = some v := by
  induction l with
  | nil => simp [lookupA, List.find?]
  | cons p tl ih =>
    simp only [List.any_cons, Bool.or_eq_false_iff, decide_eq_false_iff_not] at h
    rw [List.cons_append, lookupA_cons_ne p _ k h.1]
    exact ih h.2

/-- Dictionary assignment followed by lookup of the same key. -/
theorem lookupA_setA_self {α : Type} (l : List (Nat × α)) (k : Nat) (v : α) :
    lookupA (setA l k v) k = some v := by
  unfold setA
  by_cases hany : l.any (fun p => p.1 = k) = true
  · rw [if_pos hany]
    exact lookupA_map_overwrite l k v hany
  · rw [if_neg hany]
    exact lookupA_append_single l k v (Bool.eq_false_iff.mpr hany)

/-- The points total is the weighted label count of the scoring rule. -/
theorem pointsOf_eq_counts (ws : List WordStatus) :
    pointsOf ws = (countLabel Label.correct ws : ℚ) +
      (1/2) * (countLabel Label.mispronunciation ws : ℚ) := by
  induction ws with
  | nil => simp [pointsOf, countLabel]
  | cons w tl ih =>
    have hhead : pointsOf (w :: tl) = labelPoints w.label + pointsOf tl := by
      simp [pointsOf]
    have hc : ∀ l2 : Label, countLabel l2 (w :: tl) =
        (if w.label = l2 then 1 else 0) + countLabel l2 tl := by
      intro l2
      by_cases h : w.label = l2
      · simp only [countLabel, List.filter_cons, h, decide_eq_true_eq, if_pos trivial]
        simp [List.length_cons]
        omega
      · simp [countLabel, List.filter_cons, h]
    rw [hhead, ih, hc Label.correct, hc Label.mispronunciation]
    cases hl : w.label <;> (simp only [hl, labelPoints, if_pos, if_neg, reduceCtorEq,
      Nat.cast_add, Nat.cast_ite, Nat.cast_one, Nat.cast_zero, if_true]; try simp) <;> ring

/-- C6 (amended): for every scoring run, the stored accuracy equals
`100 × (count(correct) + 0.5 × count(mispronunciation)) / total` over the
level's `word_status` sequence ROUNDED TO TWO DECIMAL PLACES (the source
applies `round(accuracy, 2)`), equals `round2 0 = 0` when the sequence is
empty, and is derived from `word_status` alone; the stored distance is
exactly the final edit-distance cost `dp[n][m]` of `compare_text`. -/
theorem C6_amended_stored_scoring (s : GraphState) :
    ∃ lr, lookupA (node_compare_and_score s).level_results s.current_level = some lr ∧
      lr.word_status = (compare_text s.target_text s.transcribed_text).word_status ∧
      lr.distance = (compare_text s.target_text s.transcribed_text).distance ∧
      lr.distance = distW s.target_text.reverse s.transcribed_text.reverse ∧
      lr.accuracy = round2 (if lr.word_status.length = 0 then 0 else
        100 * ((countLabel Label.correct lr.word_status : ℚ) +
          (1/2) * (countLabel Label.mispronunciation lr.word_status : ℚ)) /
          (lr.word_status.length : ℚ)) ∧
      lookupA (node_compare_and_score s).level_scores s.current_level = some lr.accuracy := by
  unfold node_compare_and_score
  refine ⟨_, lookupA_setA_self _ _ _, rfl, rfl, rfl, ?_, lookupA_setA_self _ _ _⟩
  show accuracyOf (compare_text s.target_text s.transcribed_text).word_status = _
  unfold accuracyOf
  by_cases h : (compare_text s.target_text s.transcribed_text).word_status.length = 0
  · rw [if_pos h, if_pos h]
  · rw [if_neg h, if_neg h]
    rw [pointsOf_eq_counts]
    ring_nf

/-- Concrete screening state refuting C6 as stated: target "a b c",
transcript "a". -/
def c6state : GraphState :=
  ⟨1, [['a'], ['b'], ['c']], [['a']], [], [], "IN_PROGRESS", none, false, "", none, [], []⟩

/-- The word-status list produced on the counterexample input. -/
def c6ws : List WordStatus :=
  [⟨some ['a'], some ['a'], .correct, 1, "Exact match"⟩,
   ⟨some ['b'], none, .error, 9/10, "deletion detected"⟩,
   ⟨some ['c'], none, .error, 9/10, "deletion detected"⟩]

set_option maxRecDepth 2500 in
/-- Evaluation of the scorer on the counterexample input: one exactly matched
word, two deleted words. -/
theorem c6state_word_status :
    (compare_text c6state.target_text c6state.transcribed_text).word_status = c6ws := by
  with_unfolding_all decide

/-- The rounded accuracy stored for the counterexample run. -/
theorem accuracyOf_c6ws : accuracyOf c6ws = 3333/100 := by
  have harg : (if (c6ws.length = 0) then (0:ℚ)
      else pointsOf c6ws / (c6ws.length : ℚ) * 100) = 100/3 := by
    norm_num [c6ws, pointsOf, labelPoints]
  unfold accuracyOf
  rw [harg]
  have hfl : ⌊(100:ℚ)/3 * 100⌋ = 3333 := by
    rw [Int.floor_eq_iff]
    constructor <;> norm_num
  unfold round2 roundHalfEven
  rw [hfl]
  norm_num

/-- Counterexample to C6 as stated: on target "a b c" and transcript "a"
(one correct word out of three), the stored accuracy is the rounded value
`33.33`, while the exact weighted formula gives `100/3 = 33.333...`; the two
differ, so the stored accuracy does not equal the unrounded formula. -/
theorem C6_rounding_counterexample :
    (lookupA (node_compare_and_score c6state).level_results c6state.current_level).map
      LevelResult.accuracy = some (3333/100) ∧
    (lookupA (node_compare_and_score c6state).level_results c6state.current_level).map
      (fun lr => 100 * ((countLabel Label.correct lr.word_status : ℚ) +
        (1/2) * (countLabel Label.mispronunciation lr.word_status : ℚ)) /
        (lr.word_status.length : ℚ)) = some (100/3) ∧
    (3333/100 : ℚ) ≠ 100/3 := by
  have hws := c6state_word_status
  refine ⟨?_, ?_, by norm_num⟩
  · simp only [node_compare_and_score, lookupA_setA_self, Option.map_some']
    rw [hws, accuracyOf_c6ws]
  · simp only [node_compare_and_score, lookupA_setA_self, Option.map_some']
    rw [hws]
    have hc : countLabel Label.correct c6ws = 1 := by decide
    have hm : countLabel Label.mispronunciation c6ws = 0 := by decide
    have hlen : c6ws.length = 3 := by decide
    rw [hc, hm, hlen]
    norm_num

/-! ## State-machine transitions (claims C2, C3, C4, C5, C8, C10) -/

instance : Inhabited GraphState :=
  ⟨⟨0, [], [], [], [], "", none, false, "", none, [], []⟩⟩

instance : Inhabited NState :=
  ⟨⟨0, [], [], [], 0, [], [], [], "", none, none, false, "", []⟩⟩

/-- C2: on a level evaluation with accuracy below 40, the external error
reasoner is consulted exactly when the current level is 1 or 2 (never for
levels 3/4 and never on a pass), and the machine moves to RETEST with the
level unchanged and `should_continue = true` iff the reasoner's reply has
`suggest_retest = true` and confidence at least 0.6; this holds for both the
LangGraph router and the schemas-based gatekeeper. -/
theorem C2_reasoner_gate_and_retest :
    (∀ (f : Nat → List NegErr → Verdict) (s : GraphState) (lr : LevelResult)
        (out : GraphState) (inv : Bool),
        lookupA s.level_results s.current_level = some lr →
        node_decide_route f s = some (out, inv) →
        ((inv = true ↔ (lr.accuracy < 40 ∧ (s.current_level = 1 ∨ s.current_level = 2))) ∧
         (lr.accuracy < 40 → (s.current_level = 1 ∨ s.current_level = 2) →
           ((out.status = "RETEST" ∧ out.next_level = some s.current_level ∧
               out.should_continue = true) ↔
             ((f s.current_level lr.negative_errors).suggest_retest = true ∧
               3/5 ≤ (f s.current_level lr.negative_errors).confidence))))) ∧
    (∀ (f : Nat → List NegErr → Verdict) (s : NState) (lr : LevelResult)
        (out : NState) (inv : Bool),
        lookupA s.level_results s.current_level = some lr →
        node_decide_next f s = some (out, inv) →
        ((inv = true ↔ (s.last_accuracy < 40 ∧ (s.current_level = 1 ∨ s.current_level = 2))) ∧
         (s.last_accuracy < 40 → (s.current_level = 1 ∨ s.current_level = 2) →
           ((out.status = "RETEST" ∧ out.next_level = some s.current_level ∧
               out.should_continue = true) ↔
             ((f s.current_level lr.negative_errors).suggest_retest = true ∧
               3/5 ≤ (f s.current_level lr.negative_errors).confidence))))) := by
  constructor
  · intro f s lr out inv hl h
    simp only [node_decide_route, hl] at h
    split_ifs at h with h40 hlt4 h12 hv
    · simp only [Option.some.injEq, Prod.mk.injEq] at h
      obtain ⟨h1, h2⟩ := h
      subst h1; subst h2
      refine ⟨iff_of_false (by simp) (fun hx => absurd h40 (not_le.mpr hx.1)), ?_⟩
      intro hlt _
      exact absurd h40 (not_le.mpr hlt)
    · simp only [Option.some.injEq, Prod.mk.injEq] at h
      obtain ⟨h1, h2⟩ := h
      subst h1; subst h2
      refine ⟨iff_of_false (by simp) (fun hx => absurd h40 (not_le.mpr hx.1)), ?_⟩
      intro hlt _
      exact absurd h40 (not_le.mpr hlt)
    · simp only [Option.some.injEq, Prod.mk.injEq] at h
      obtain ⟨h1, h2⟩ := h
      subst h1; subst h2
      refine ⟨iff_of_true rfl ⟨not_le.mp h40, h12⟩, ?_⟩
      intro _ _
      exact iff_of_true ⟨rfl, rfl, rfl⟩ hv
    · simp only [Option.some.injEq, Prod.mk.injEq] at h
      obtain ⟨h1, h2⟩ := h
      subst h1; subst h2
      refine ⟨iff_of_true rfl ⟨not_le.mp h40, h12⟩, ?_⟩
      intro _ _
      refine iff_of_false (fun hx => ?_) hv
      exact absurd (show ("COMPLETED" : String) = "RETEST" from hx.1) (by decide)
    · simp only [Option.some.injEq, Prod.mk.injEq] at h
      obtain ⟨h1, h2⟩ := h
      subst h1; subst h2
      refine ⟨iff_of_false (by simp) (fun hx => h12 hx.2), ?_⟩
      intro _ h12x
      exact absurd h12x h12
  · intro f s lr out inv hl h
    simp only [node_decide_next, hl] at h
    split_ifs at h with hacc h12 hv hlt4
    · simp only [Option.some.injEq, Prod.mk.injEq] at h
      obtain ⟨h1, h2⟩ := h
      subst h1; subst h2
      refine ⟨iff_of_true rfl ⟨hacc, h12⟩, ?_⟩
      intro _ _
      exact iff_of_true ⟨rfl, rfl, rfl⟩ hv
    · simp only [Option.some.injEq, Prod.mk.injEq] at h
      obtain ⟨h1, h2⟩ := h
      subst h1; subst h2
      refine ⟨iff_of_true rfl ⟨hacc, h12⟩, ?_⟩
      intro _ _
      refine iff_of_false (fun hx => ?_) hv
      exact absurd (show ("COMPLETED" : String) = "RETEST" from hx.1) (by decide)
    · simp only [Option.some.injEq, Prod.mk.injEq] at h
      obtain ⟨h1, h2⟩ := h
      subst h1; subst h2
      refine ⟨iff_of_false (by simp) (fun hx => h12 hx.2), ?_⟩
      intro _ h12x
      exact absurd h12x h12
    · simp only [Option.some.injEq, Prod.mk.injEq] at h
      obtain ⟨h1, h2⟩ := h
      subst h1; subst h2
      refine ⟨iff_of_false (by simp) (fun hx => absurd hx.1 hacc), ?_⟩
      intro hlt _
      exact absurd hlt hacc
    · simp only [Option.some.injEq, Prod.mk.injEq] at h
      obtain ⟨h1, h2⟩ := h
      subst h1; subst h2
      refine ⟨iff_of_false (by simp) (fun hx => absurd hx.1 hacc), ?_⟩
      intro hlt _
      exact absurd hlt hacc

def c2f : Nat → List NegErr → Verdict := fun _ _ => ⟨"accent influence", 4/5, true, "accent"⟩

def c2lr : LevelResult := ⟨[], [], 30, 0, [], []⟩

def c2s : GraphState := ⟨1, [], [], [], [(1, c2lr)], "IN_PROGRESS", none, false, "", none, [], []⟩

def c2out : GraphState × Bool := (node_decide_route c2f c2s).getD default

/-- Witness for C2: level 1, accuracy 30, reasoner suggesting a retest with
confidence 0.8. -/
theorem C2_reasoner_gate_and_retest_witness :
    (c2out.2 = true ↔ (c2lr.accuracy < 40 ∧ (c2s.current_level = 1 ∨ c2s.current_level = 2))) ∧
    (c2lr.accuracy < 40 → (c2s.current_level = 1 ∨ c2s.current_level = 2) →
      ((c2out.1.status = "RETEST" ∧ c2out.1.next_level = some c2s.current_level ∧
          c2out.1.should_continue = true) ↔
        ((c2f c2s.current_level c2lr.negative_errors).suggest_retest = true ∧
          3/5 ≤ (c2f c2s.current_level c2lr.negative_errors).confidence))) :=
  C2_reasoner_gate_and_retest.1 c2f c2s c2lr c2out.1 c2out.2 rfl (by with_unfolding_all rfl)

def c3f : Nat → List NegErr → Verdict := fun _ _ => ⟨"", 0, false, ""⟩

def c3lr : LevelResult := ⟨[], [], 90, 0, [], []⟩

def c3s : GraphState := ⟨4, [], [], [], [(4, c3lr)], "IN_PROGRESS", none, false, "", none, [], []⟩

def c3out : GraphState × Bool := (node_decide_route c3f c3s).getD default

def c3ns1 : NState := ⟨1, [], [], [], 90, [], [], [], "IN_PROGRESS", none, none, false, "", []⟩

def c3ns4 : NState := ⟨4, [], [], [], 90, [], [], [], "IN_PROGRESS", none, none, false, "", []⟩

def c3nout1 : NState × Bool := (node_decide_next c3f c3ns1).getD default

def c3nout4 : NState × Bool := (node_decide_next c3f c3ns4).getD default

/-- Counterexample to C3 as stated: the schemas-based gatekeeper
`node_decide_next` (a cited implementation of the decision step), on a pass
with accuracy 90, sets status IN_PROGRESS below level 4 and VERIFYING at
level 4 — not PASS and COMPLETED as the claim states. -/
theorem C3_pass_status_counterexample :
    node_decide_next c3f c3ns1 = some (c3nout1.1, c3nout1.2) ∧
    (40 : ℚ) ≤ c3ns1.last_accuracy ∧ c3ns1.current_level < 4 ∧
    c3nout1.1.status = "IN_PROGRESS" ∧ c3nout1.1.status ≠ "PASS" ∧
    node_decide_next c3f c3ns4 = some (c3nout4.1, c3nout4.2) ∧
    (40 : ℚ) ≤ c3ns4.last_accuracy ∧ c3ns4.current_level = 4 ∧
    c3nout4.1.status = "VERIFYING" ∧ c3nout4.1.status ≠ "COMPLETED" :=
  ⟨by with_unfolding_all rfl, by with_unfolding_all decide, by decide,
   by with_unfolding_all rfl, by with_unfolding_all decide,
   by with_unfolding_all rfl, by with_unfolding_all decide, rfl,
   by with_unfolding_all rfl, by with_unfolding_all decide⟩

/-- C3 (amended): on a level evaluation with accuracy at least 40, both
deciders advance to `current_level + 1` with `should_continue = true` below
level 4, and at level 4 clear `next_level` and stop continuing, proceeding to
final verification; the status strings differ per implementation: the
LangGraph router sets PASS / COMPLETED (routing COMPLETED to the verifier),
while the schemas-based gatekeeper sets IN_PROGRESS / VERIFYING. -/
theorem C3_amended_pass_transition :
    (∀ (f : Nat → List NegErr → Verdict) (s : GraphState) (lr : LevelResult)
        (out : GraphState) (inv : Bool),
        lookupA s.level_results s.current_level = some lr →
        40 ≤ lr.accuracy →
        node_decide_route f s = some (out, inv) →
        ((s.current_level < 4 → out.status = "PASS" ∧
            out.next_level = some (s.current_level + 1) ∧ out.should_continue = true) ∧
         (s.current_level = 4 → out.status = "COMPLETED" ∧ out.next_level = none ∧
            out.should_continue = false ∧ route_condition out = "VERIFY"))) ∧
    (∀ (f : Nat → List NegErr → Verdict) (s : NState) (out : NState) (inv : Bool),
        40 ≤ s.last_accuracy →
        node_decide_next f s = some (out, inv) →
        ((s.current_level < 4 → out.status = "IN_PROGRESS" ∧
            out.next_level = some (s.current_level + 1) ∧ out.should_continue = true) ∧
         (s.current_level = 4 → out.status = "VERIFYING" ∧ out.next_level = none ∧
            out.should_continue = false))) := by
  constructor
  · intro f s lr out inv hl hacc h
    simp only [node_decide_route, hl] at h
    split_ifs at h with hlt4
    · simp only [Option.some.injEq, Prod.mk.injEq] at h
      obtain ⟨h1, h2⟩ := h
      subst h1; subst h2
      refine ⟨fun _ => ⟨rfl, rfl, rfl⟩, fun h4 => absurd (h4 ▸ hlt4) (by omega)⟩
    · simp only [Option.some.injEq, Prod.mk.injEq] at h
      obtain ⟨h1, h2⟩ := h
      subst h1; subst h2
      exact ⟨fun hlt => absurd hlt hlt4, fun _ => ⟨rfl, rfl, rfl, rfl⟩⟩
  · intro f s out inv hacc h
    simp only [node_decide_next] at h
    split_ifs at h with hlt h12 hlt4
    · exact absurd hlt (not_lt.mpr hacc)
    · exact absurd hlt (not_lt.mpr hacc)
    · simp only [Option.some.injEq, Prod.mk.injEq] at h
      obtain ⟨h1, h2⟩ := h
      subst h1; subst h2
      refine ⟨fun _ => ⟨rfl, rfl, rfl⟩, fun h4 => absurd (h4 ▸ hlt4) (by omega)⟩
    · simp only [Option.some.injEq, Prod.mk.injEq] at h
      obtain ⟨h1, h2⟩ := h
      subst h1; subst h2
      exact ⟨fun hl4 => absurd hl4 hlt4, fun _ => ⟨rfl, rfl, rfl⟩⟩

/-- Witness for the amended C3: level 4 with accuracy 90 in the router
(COMPLETED, routed to verification) and in the gatekeeper (VERIFYING). -/
theorem C3_amended_pass_transition_witness :
    ((c3s.current_level < 4 → c3out.1.status = "PASS" ∧
        c3out.1.next_level = some (c3s.current_level + 1) ∧
        c3out.1.should_continue = true) ∧
     (c3s.current_level = 4 → c3out.1.status = "COMPLETED" ∧ c3out.1.next_level = none ∧
        c3out.1.should_continue = false ∧ route_condition c3out.1 = "VERIFY")) ∧
    ((c3ns4.current_level < 4 → c3nout4.1.status = "IN_PROGRESS" ∧
        c3nout4.1.next_level = some (c3ns4.current_level + 1) ∧
        c3nout4.1.should_continue = true) ∧
     (c3ns4.current_level = 4 → c3nout4.1.status = "VERIFYING" ∧
        c3nout4.1.next_level = none ∧ c3nout4.1.should_continue = false)) :=
  ⟨C3_amended_pass_transition.1 c3f c3s c3lr c3out.1 c3out.2 rfl
     (by with_unfolding_all decide) (by with_unfolding_all rfl),
   C3_amended_pass_transition.2 c3f c3ns4 c3nout4.1 c3nout4.2
     (by with_unfolding_all decide) (by with_unfolding_all rfl)⟩

def c4f : Nat → List NegErr → Verdict := fun _ _ => ⟨"low signal", 1/4, true, "noise"⟩

def c4lr : LevelResult := ⟨[], [], 30, 0, [], []⟩

def c4s : GraphState := ⟨3, [], [], [], [(3, c4lr)], "IN_PROGRESS", none, false, "", none, [], []⟩

def c4out : GraphState × Bool := (node_decide_route c4f c4s).getD default

def c4ns : NState := ⟨3, [], [], [], 30, [], [(3, c4lr)], [], "IN_PROGRESS", none, none, false, "", []⟩

def c4nout : NState × Bool := (node_decide_next c4f c4ns).getD default

/-- Counterexample to C4 as stated: at level 3 with accuracy 30 the
schemas-based gatekeeper `node_decide_next` (a cited implementation of the
decision step) assigns `final_result = RISK_DYSLEXIA` by itself instead of
leaving it for final verification. -/
theorem C4_self_assigned_final_result_counterexample :
    node_decide_next c4f c4ns = some (c4nout.1, c4nout.2) ∧
    c4ns.last_accuracy < 40 ∧ (c4ns.current_level = 3 ∨ c4ns.current_level = 4) ∧
    c4ns.final_result = none ∧
    c4nout.1.final_result = some "RISK_DYSLEXIA" ∧
    c4nout.1.final_result ≠ c4ns.final_result :=
  ⟨by with_unfolding_all rfl, by with_unfolding_all decide, Or.inl rfl, rfl,
   by with_unfolding_all rfl, by with_unfolding_all decide⟩

/-- C4 (amended): on a level evaluation with accuracy below 40 in which no
retest is granted (level 3 or 4, or the reasoner's reply does not warrant a
retest), both deciders set status COMPLETED with no next level and stop
continuing; the LangGraph router leaves `final_result` unchanged and routes
the state to final verification, while the schemas-based gatekeeper instead
assigns `final_result = RISK_DYSLEXIA` itself. -/
theorem C4_amended_fail_no_retest :
    (∀ (f : Nat → List NegErr → Verdict) (s : GraphState) (lr : LevelResult)
        (out : GraphState) (inv : Bool),
        lookupA s.level_results s.current_level = some lr →
        lr.accuracy < 40 →
        ((s.current_level = 3 ∨ s.current_level = 4) ∨
          ((s.current_level = 1 ∨ s.current_level = 2) ∧
            ¬((f s.current_level lr.negative_errors).suggest_retest = true ∧
              3/5 ≤ (f s.current_level lr.negative_errors).confidence))) →
        node_decide_route f s = some (out, inv) →
        (out.status = "COMPLETED" ∧ out.next_level = none ∧ out.should_continue = false ∧
         out.final_result = s.final_result ∧ route_condition out = "VERIFY")) ∧
    (∀ (f : Nat → List NegErr → Verdict) (s : NState) (lr : LevelResult)
        (out : NState) (inv : Bool),
        lookupA s.level_results s.current_level = some lr →
        s.last_accuracy < 40 →
        ((s.current_level = 3 ∨ s.current_level = 4) ∨
          ((s.current_level = 1 ∨ s.current_level = 2) ∧
            ¬((f s.current_level lr.negative_errors).suggest_retest = true ∧
              3/5 ≤ (f s.current_level lr.negative_errors).confidence))) →
        node_decide_next f s = some (out, inv) →
        (out.status = "COMPLETED" ∧ out.next_level = none ∧ out.should_continue = false ∧
         out.final_result = some "RISK_DYSLEXIA")) := by
  constructor
  · intro f s lr out inv hl hacc hnr h
    simp only [node_decide_route, hl] at h
    split_ifs at h with h40 hlt4 h12 hv
    · exact absurd h40 (not_le.mpr hacc)
    · exact absurd h40 (not_le.mpr hacc)
    · exfalso
      rcases hnr with h34 | ⟨_, hnv⟩
      · rcases h12 with h1 | h2 <;> rcases h34 with h3 | h4 <;> omega
      · exact hnv hv
    · simp only [Option.some.injEq, Prod.mk.injEq] at h
      obtain ⟨h1, h2⟩ := h
      subst h1; subst h2
      exact ⟨rfl, rfl, rfl, rfl, rfl⟩
    · simp only [Option.some.injEq, Prod.mk.injEq] at h
      obtain ⟨h1, h2⟩ := h
      subst h1; subst h2
      exact ⟨rfl, rfl, rfl, rfl, rfl⟩
  · intro f s lr out inv hl hacc hnr h
    simp only [node_decide_next, hl] at h
    split_ifs at h with h12 hv
    · exfalso
      rcases hnr with h34 | ⟨_, hnv⟩
      · rcases h12 with h1 | h2 <;> rcases h34 with h3 | h4 <;> omega
      · exact hnv hv
    · simp only [Option.some.injEq, Prod.mk.injEq] at h
      obtain ⟨h1, h2⟩ := h
      subst h1; subst h2
      exact ⟨rfl, rfl, rfl, rfl⟩
    · simp only [Option.some.injEq, Prod.mk.injEq] at h
      obtain ⟨h1, h2⟩ := h
      subst h1; subst h2
      exact ⟨rfl, rfl, rfl, rfl⟩

/-- Witness for the amended C4: level 3 with accuracy 30 in the router
(COMPLETED, final_result untouched, routed to verification) and in the
gatekeeper (COMPLETED with self-assigned RISK_DYSLEXIA). -/
theorem C4_amended_fail_no_retest_witness :
    (c4out.1.status = "COMPLETED" ∧ c4out.1.next_level = none ∧
     c4out.1.should_continue = false ∧ c4out.1.final_result = c4s.final_result ∧
     route_condition c4out.1 = "VERIFY") ∧
    (c4nout.1.status = "COMPLETED" ∧ c4nout.1.next_level = none ∧
     c4nout.1.should_continue = false ∧ c4nout.1.final_result = some "RISK_DYSLEXIA") :=
  ⟨C4_amended_fail_no_retest.1 c4f c4s c4lr c4out.1 c4out.2 rfl
     (by with_unfolding_all decide) (Or.inl (Or.inl rfl)) (by with_unfolding_all rfl),
   C4_amended_fail_no_retest.2 c4f c4ns c4lr c4nout.1 c4nout.2 rfl
     (by with_unfolding_all decide) (Or.inl (Or.inl rfl)) (by with_unfolding_all rfl)⟩

def c5g : List (Nat × LevelResult) → VerifyVerdict := fun _ => ⟨"RISK_DYSLEXIA", 1/2, "weak"⟩

def c5s : GraphState := ⟨4, [], [], [], [], "COMPLETED", none, false, "", none, [], []⟩

def c5nlr : LevelResult := ⟨[], [], 90, 0, [], []⟩

def c5ns : NState :=
  ⟨4, [], [], [], 90, [], [(1, c5nlr)], [], "IN_PROGRESS", none, none, false, "", []⟩

/-- Counterexample to C5 as stated: the schemas-based final verification
`node_llm_verification` (a cited implementation) persists a RISK_DYSLEXIA
verdict returned with confidence 0.5 as-is — there is no confidence < 0.6
override on that path. -/
theorem C5_no_safeguard_counterexample :
    (c5g c5ns.level_results).confidence < 3/5 ∧
    (c5g c5ns.level_results).final_result = "RISK_DYSLEXIA" ∧
    (node_llm_verification c5g c5ns).1.final_result = some "RISK_DYSLEXIA" ∧
    (node_llm_verification c5g c5ns).1.final_result ≠ some "INCONCLUSIVE" :=
  ⟨by with_unfolding_all decide, rfl, by with_unfolding_all rfl,
   by with_unfolding_all decide⟩

/-- C5 (amended): the LangGraph final verifier overrides a verdict returned
with confidence below 0.6 to INCONCLUSIVE and otherwise persists the
returned `final_result`, ending COMPLETED and not continuing; the
schemas-based `node_llm_verification`, when results are present, persists
the returned `final_result` without the confidence safeguard, sets status
COMPLETED, and leaves `should_continue` unchanged. -/
theorem C5_amended_final_verification :
    (∀ (g : List (Nat × LevelResult) → VerifyVerdict) (s : GraphState),
      ((g s.level_results).confidence < 3/5 →
        (node_final_verifier g s).1.final_result = some "INCONCLUSIVE") ∧
      (¬ (g s.level_results).confidence < 3/5 →
        (node_final_verifier g s).1.final_result = some (g s.level_results).final_result) ∧
      (node_final_verifier g s).1.status = "COMPLETED" ∧
      (node_final_verifier g s).1.should_continue = false) ∧
    (∀ (g : List (Nat × LevelResult) → VerifyVerdict) (s : NState),
      s.level_results ≠ [] →
      ((node_llm_verification g s).1.final_result = some (g s.level_results).final_result ∧
       (node_llm_verification g s).1.status = "COMPLETED" ∧
       (node_llm_verification g s).1.should_continue = s.should_continue)) := by
  constructor
  · intro g s
    refine ⟨?_, ?_, rfl, rfl⟩
    · intro hc
      simp only [node_final_verifier]
      rw [if_pos hc]
    · intro hc
      simp only [node_final_verifier]
      rw [if_neg hc]
  · intro g s hne
    refine ⟨?_, ?_, ?_⟩ <;> (simp only [node_llm_verification]; rw [if_neg hne])

/-- Witness for the amended C5: a RISK_DYSLEXIA verdict at confidence 0.5 is
overridden to INCONCLUSIVE by the LangGraph verifier but persisted as-is by
the schemas-based node. -/
theorem C5_amended_final_verification_witness :
    (node_final_verifier c5g c5s).1.final_result = some "INCONCLUSIVE" ∧
    (node_final_verifier c5g c5s).1.status = "COMPLETED" ∧
    (node_final_verifier c5g c5s).1.should_continue = false ∧
    (node_llm_verification c5g c5ns).1.final_result =
      some (c5g c5ns.level_results).final_result ∧
    (node_llm_verification c5g c5ns).1.status = "COMPLETED" :=
  ⟨(C5_amended_final_verification.1 c5g c5s).1 (by with_unfolding_all decide),
   (C5_amended_final_verification.1 c5g c5s).2.2.1,
   (C5_amended_final_verification.1 c5g c5s).2.2.2,
   (C5_amended_final_verification.2 c5g c5ns (List.cons_ne_nil _ _)).1,
   (C5_amended_final_verification.2 c5g c5ns (List.cons_ne_nil _ _)).2.1⟩

/-- C8: if final verification is reached with an empty `level_results`
mapping, the machine immediately persists INCONCLUSIVE and does not consult
the external verification collaborator (its output does not depend on the
collaborator at all). -/
theorem C8_empty_results_short_circuit (g : List (Nat × LevelResult) → VerifyVerdict)
    (s : NState) (h : s.level_results = []) :
    (node_llm_verification g s).1.final_result = some "INCONCLUSIVE" ∧
    (node_llm_verification g s).2 = false ∧
    (∀ g2, node_llm_verification g2 s = node_llm_verification g s) := by
  refine ⟨?_, ?_, ?_⟩
  · simp [node_llm_verification, h]
  · simp [node_llm_verification, h]
  · intro g2
    simp [node_llm_verification, h]

def c8g : List (Nat × LevelResult) → VerifyVerdict := fun _ => ⟨"RISK_DYSLEXIA", 9/10, "x"⟩

def c8s : NState := ⟨1, [], [], [], 0, [], [], [], "IN_PROGRESS", none, none, false, "", []⟩

/-- Witness for C8: an empty screening state short-circuits to INCONCLUSIVE
without consulting the collaborator. -/
theorem C8_empty_results_short_circuit_witness :
    (node_llm_verification c8g c8s).1.final_result = some "INCONCLUSIVE" ∧
    (node_llm_verification c8g c8s).2 = false :=
  ⟨(C8_empty_results_short_circuit c8g c8s rfl).1,
   (C8_empty_results_short_circuit c8g c8s rfl).2.1⟩

def c10f : Nat → List NegErr → Verdict := fun _ _ => ⟨"", 0, false, ""⟩

def c10s : NState := ⟨3, [], [], [], 30, [], [], [], "IN_PROGRESS", none, none, false, "", []⟩

def c10out : NState × Bool := (node_decide_next c10f c10s).getD default

/-- Counterexample to C10 as stated: at level 3 with accuracy 30 the
schemas-based decision step `node_decide_next` WRITES `final_result`
(setting RISK_DYSLEXIA), a field outside the list the claim allows, so the
decision step does not write only status/next_level/should_continue/message/
features/logs. -/
theorem C10_decision_writes_final_result_counterexample :
    node_decide_next c10f c10s = some (c10out.1, c10out.2) ∧
    c10out.1.final_result = some "RISK_DYSLEXIA" ∧
    c10s.final_result = none ∧
    c10out.1.final_result ≠ c10s.final_result := by
  refine ⟨by with_unfolding_all rfl, by with_unfolding_all rfl, rfl, ?_⟩
  intro hx
  rw [show c10s.final_result = none from rfl] at hx
  have : c10out.1.final_result = some "RISK_DYSLEXIA" := by with_unfolding_all rfl
  rw [this] at hx
  cases hx

/-- C10 (amended): both decision steps leave `current_level`,
`level_scores`, the stored `level_results`, and the input texts unchanged;
the LangGraph router `node_decide_route` writes only status, next_level,
should_continue, message, features and logs, while the schemas-based
`node_decide_next` additionally writes `final_result`. -/
theorem C10_amended_decision_frame :
    (∀ (f : Nat → List NegErr → Verdict) (s : GraphState) (out : GraphState) (inv : Bool),
      node_decide_route f s = some (out, inv) →
        (out.current_level = s.current_level ∧ out.level_scores = s.level_scores ∧
         out.level_results = s.level_results ∧ out.target_text = s.target_text ∧
         out.transcribed_text = s.transcribed_text ∧ out.final_result = s.final_result)) ∧
    (∀ (f : Nat → List NegErr → Verdict) (s : NState) (out : NState) (inv : Bool),
      node_decide_next f s = some (out, inv) →
        (out.current_level = s.current_level ∧ out.level_scores = s.level_scores ∧
         out.level_results = s.level_results ∧ out.target_text = s.target_text ∧
         out.transcribed_text = s.transcribed_text ∧ out.expected_text = s.expected_text ∧
         out.last_accuracy = s.last_accuracy)) := by
  constructor
  · intro f s out inv h
    simp only [node_decide_route] at h
    split at h
    · exact Option.noConfusion h
    · split_ifs at h
      all_goals
        simp only [Option.some.injEq, Prod.mk.injEq] at h
        obtain ⟨h1, h2⟩ := h
        subst h1
        exact ⟨rfl, rfl, rfl, rfl, rfl, rfl⟩
  · intro f s out inv h
    simp only [node_decide_next] at h
    split_ifs at h with hacc h12 hlt4
    · split at h
      · exact Option.noConfusion h
      · split_ifs at h
        all_goals
          simp only [Option.some.injEq, Prod.mk.injEq] at h
          obtain ⟨h1, h2⟩ := h
          subst h1
          exact ⟨rfl, rfl, rfl, rfl, rfl, rfl, rfl⟩
    all_goals
      simp only [Option.some.injEq, Prod.mk.injEq] at h
      obtain ⟨h1, h2⟩ := h
      subst h1
      exact ⟨rfl, rfl, rfl, rfl, rfl, rfl, rfl⟩

def c10g : GraphState := ⟨2, [], [], [], [(2, c2lr)], "IN_PROGRESS", none, false, "", none, [], []⟩

def c10gout : GraphState × Bool := (node_decide_route c10f c10g).getD default

/-- Witness for the amended C10 at a concrete level-2 failing state for the
router, and at the C10 counterexample state for the gatekeeper. -/
theorem C10_amended_decision_frame_witness :
    (c10gout.1.current_level = c10g.current_level ∧
     c10gout.1.level_scores = c10g.level_scores ∧
     c10gout.1.level_results = c10g.level_results ∧
     c10gout.1.target_text = c10g.target_text ∧
     c10gout.1.transcribed_text = c10g.transcribed_text ∧
     c10gout.1.final_result = c10g.final_result) ∧
    (c10out.1.current_level = c10s.current_level ∧
     c10out.1.level_scores = c10s.level_scores ∧
     c10out.1.level_results = c10s.level_results ∧
     c10out.1.target_text = c10s.target_text ∧
     c10out.1.transcribed_text = c10s.transcribed_text ∧
     c10out.1.expected_text = c10s.expected_text ∧
     c10out.1.last_accuracy = c10s.last_accuracy) :=
  ⟨C10_amended_decision_frame.1 c10f c10g c10gout.1 c10gout.2 (by with_unfolding_all rfl),
   C10_amended_decision_frame.2 c10f c10s c10out.1 c10out.2 (by with_unfolding_all rfl)⟩

end Mugiwara
